import Mathlib

/-!
# A verification model of the BitFun cowork scheduler

This file gives a shallow embedding of the cowork session/task scheduler of
the BitFun repository (crates/core/src/agentic/cowork/{types,manager,planning,
scheduler}.rs) and proves properties of it.

Modelling conventions:
- Rust `Vec<T>` becomes `List T`; `HashMap<String, CoworkTask>` built from the
  session's task list becomes lookup by `findTask` (first match; the Rust map,
  built by inserting in list order, retains the last duplicate, but sessions
  have unique task ids, in which case the two agree and the choice is
  irrelevant).
- `chrono::Utc::now().timestamp_millis()` timestamps become an explicit
  `now : Int` parameter.  Where the manager refreshes `updated_at_ms` with its
  own clock immediately after a scheduler pass set it, both reads are modelled
  by the same `now`.
- Fallible operations return `Except BitFunError` or pair their result with
  `Option BitFunError`; the store of sessions (`DashMap`) becomes an
  association list updated by `storeInsert`.
- Rust `&str` is modelled, where byte-level behaviour matters (the `truncate`
  helper), as `List Char` together with `Char.utf8Size`; a byte-slice panic is
  modelled as `Option.none`.
-/

namespace Cowork

/-- Session states, from `types.rs` (`CoworkSessionState`). -/
inductive CoworkSessionState where
  | Draft
  | Planning
  | Ready
  | Running
  | Paused
  | Completed
  | Cancelled
  | Error
deriving DecidableEq, Repr

/-- Task states, from `types.rs` (`CoworkTaskState`). -/
inductive CoworkTaskState where
  | Draft
  | Ready
  | Blocked
  | Running
  | WaitingUserInput
  | Completed
  | Failed
  | Cancelled
deriving DecidableEq, Repr

/-- Task resource modes, from `types.rs` (`CoworkTaskResourceMode`). -/
inductive CoworkTaskResourceMode where
  | ReadOnly
  | WorkspaceWrite
deriving DecidableEq, Repr

/-- `types.rs`: `default_task_resource_mode()` (the serde default). -/
def default_task_resource_mode : CoworkTaskResourceMode :=
  CoworkTaskResourceMode.WorkspaceWrite

/-- Roster member, from `types.rs` (`CoworkRosterMember`). -/
structure CoworkRosterMember where
  id : String
  role : String
  agent_type : Option String
  subagent_type : String
  description : String
deriving DecidableEq, Repr

/-- Task, from `types.rs` (`CoworkTask`). -/
structure CoworkTask where
  id : String
  title : String
  description : String
  deps : List String
  assignee : String
  state : CoworkTaskState
  resource_mode : CoworkTaskResourceMode
  questions : List String
  user_answers : List String
  output_text : String
  error : Option String
  created_at_ms : Int
  updated_at_ms : Int
  started_at_ms : Option Int
  finished_at_ms : Option Int
deriving DecidableEq, Repr

/-- Session, from `types.rs` (`CoworkSession`). -/
structure CoworkSession where
  cowork_session_id : String
  goal : String
  state : CoworkSessionState
  roster : List CoworkRosterMember
  workspace_root : Option String
  task_order : List String
  tasks : List CoworkTask
  created_at_ms : Int
  updated_at_ms : Int
deriving DecidableEq, Repr

/-- The error kinds of `BitFunError` used by the cowork core. -/
inductive BitFunError where
  | NotFound (msg : String)
  | Validation (msg : String)
  | AIClient (msg : String)
  | Cancelled (msg : String)
deriving DecidableEq, Repr

/-- A single quote character, used to reproduce the Rust error-message
formatting without a quote literal. -/
def sq : String := String.singleton (Char.ofNat 39)

/-- Lookup of a task by id: the embedding of `tasks_by_id.get(task_id)`
(first matching task; ids are unique in well-formed sessions). -/
def findTask (tasks : List CoworkTask) (tid : String) : Option CoworkTask :=
  tasks.find? (fun t => t.id == tid)

/-- `CoworkManager::update_task` restricted to the task list: replace the
first task with the same id.  (The manager also refreshes `updated_at_ms`
with its own clock — modelled by the caller already using the same `now` —
and returns NotFound when the id is absent; in the scheduler the id always
comes from a snapshot of the same list, so we model the absent case as a
no-op.) -/
def updateTaskIn (tasks : List CoworkTask) (nt : CoworkTask) : List CoworkTask :=
  match tasks with
  | [] => []
  | t :: rest => if t.id == nt.id then nt :: rest else t :: updateTaskIn rest nt

/-- `scheduler.rs`: `deps_completed` — every dependency resolves to a task in
`Completed` state (unknown dependency ids count as not completed). -/
def deps_completed (tasks : List CoworkTask) (t : CoworkTask) : Bool :=
  t.deps.all (fun dep =>
    match findTask tasks dep with
    | some d => d.state == CoworkTaskState.Completed
    | none => false)

/-- `scheduler.rs`: `deps_failed` — the first dependency whose task is in
`Failed`, `Cancelled` or `Blocked` state, if any. -/
def deps_failed (tasks : List CoworkTask) (t : CoworkTask) : Option String :=
  t.deps.find? (fun dep =>
    match findTask tasks dep with
    | some d =>
        d.state == CoworkTaskState.Failed || d.state == CoworkTaskState.Cancelled ||
          d.state == CoworkTaskState.Blocked
    | none => false)

/-- A generic pass of the scheduler loop over `task_order`: each id is looked
up in a fixed pre-pass snapshot `snap` (the Rust passes read `tasks_by_id`,
which is built once before the pass and not refreshed), and when the
per-task rule `f` fires, the transformed task is persisted with
`update_task` into the evolving store `tasks0`. -/
def stalePass (f : CoworkTask → Option CoworkTask) (snap : List CoworkTask) :
    List String → List CoworkTask → List CoworkTask
  | [], tasks0 => tasks0
  | tid :: rest, tasks0 =>
    stalePass f snap rest
      (match findTask snap tid with
       | none => tasks0
       | some t =>
         match f t with
         | none => tasks0
         | some t2 => updateTaskIn tasks0 t2)

/-- `scheduler.rs` lines 84-106, the HITL rule for one task: a task with
questions and no answers that is not already `WaitingUserInput` is moved to
`WaitingUserInput`.  (No restriction on the task's current state.) -/
def hitlMod (now : Int) (t : CoworkTask) : Option CoworkTask :=
  if t.questions ≠ [] ∧ t.user_answers = [] ∧ t.state ≠ CoworkTaskState.WaitingUserInput then
    some { t with state := CoworkTaskState.WaitingUserInput, updated_at_ms := now }
  else none

/-- The HITL pass over `task_order` (snapshot and store start equal). -/
def hitlPass (now : Int) (order : List String) (snap : List CoworkTask) : List CoworkTask :=
  stalePass (hitlMod now) snap order snap

/-- The error message set on a task blocked by a failed dependency. -/
def blockedMsg (depId : String) : String :=
  "Blocked: dependency " ++ sq ++ depId ++ sq ++ " failed or was cancelled"

/-- `scheduler.rs` lines 114-131, the blocking rule for one task: a
`Draft`/`Ready` task with a failed/cancelled/blocked dependency is moved to
`Blocked` with an error naming that dependency.  (The inner
`state != Blocked` check of the source is always true on this branch.) -/
def blockingMod (now : Int) (snap : List CoworkTask) (t : CoworkTask) : Option CoworkTask :=
  if (t.state = CoworkTaskState.Draft ∨ t.state = CoworkTaskState.Ready) ∧
      (deps_failed snap t).isSome then
    some { t with
            state := CoworkTaskState.Blocked,
            error := some (blockedMsg ((deps_failed snap t).getD "unknown")),
            updated_at_ms := now }
  else none

/-- The blocking-propagation pass over `task_order`. -/
def blockingPass (now : Int) (order : List String) (snap : List CoworkTask) : List CoworkTask :=
  stalePass (blockingMod now snap) snap order snap

/-- First supplied task with a dependency that is not the id of any task in
`all`, together with that dependency (iteration in list order; the
scheduler's own validation iterates a hash map whose order is unspecified,
so only existence matters there). -/
def firstBadDep (all : List CoworkTask) : List CoworkTask → Option (String × String)
  | [] => none
  | t :: rest =>
    match t.deps.find? (fun dep => (findTask all dep).isNone) with
    | some dep => some (t.id, dep)
    | none => firstBadDep all rest

/-- The Validation message of `scheduler.rs` lines 76-79 / `manager.rs`
lines 243-246. -/
def badDepMsg (tid dep : String) : String :=
  "Task " ++ sq ++ tid ++ sq ++ " depends on unknown task id " ++ sq ++ dep ++ sq

/-- `scheduler.rs` lines 72-82: the per-iteration dependency validation. -/
def validateDeps (tasks : List CoworkTask) : Option BitFunError :=
  (firstBadDep tasks tasks).map (fun p => BitFunError.Validation (badDepMsg p.1 p.2))

/-- Terminal task states (completion check of `scheduler.rs` lines 139-151). -/
def isTerminalTask : CoworkTaskState → Bool
  | CoworkTaskState.Completed => true
  | CoworkTaskState.Failed => true
  | CoworkTaskState.Cancelled => true
  | CoworkTaskState.Blocked => true
  | _ => false

/-- All tasks terminal (`scheduler.rs` lines 140-151). -/
def allTerminal (tasks : List CoworkTask) : Bool :=
  tasks.all (fun t => isTerminalTask t.state)

/-- Some task `Failed` or `Blocked` (`scheduler.rs` lines 153-156). -/
def hasFailure (tasks : List CoworkTask) : Bool :=
  tasks.any (fun t =>
    t.state == CoworkTaskState.Failed || t.state == CoworkTaskState.Blocked)

/-- A task currently holding the workspace-write slot. -/
def isWWRunning (t : CoworkTask) : Bool :=
  t.state == CoworkTaskState.Running &&
    t.resource_mode == CoworkTaskResourceMode.WorkspaceWrite

/-- Number of `Running` workspace-write tasks. -/
def countWW (tasks : List CoworkTask) : Nat :=
  (tasks.filter isWWRunning).length

/-- `scheduler.rs` lines 170-179: initial `has_workspace_write_running`. -/
def hasWWRunningInit (tasks : List CoworkTask) : Bool :=
  tasks.any isWWRunning

/-- `scheduler.rs` lines 170-179: initial `running_total`. -/
def runningCount (tasks : List CoworkTask) : Nat :=
  (tasks.filter (fun t => t.state == CoworkTaskState.Running)).length

/-- `scheduler.rs` line 181: `max_parallel = max(1, roster.len())`. -/
def maxParallel (roster : List CoworkRosterMember) : Nat :=
  max 1 roster.length

/-- `scheduler.rs` lines 196-200: the HITL gate at dispatch time. -/
def hitlOk (t : CoworkTask) : Bool :=
  t.questions.isEmpty ||
    (!t.user_answers.isEmpty && t.state != CoworkTaskState.WaitingUserInput)

/-- The mutable state of the dispatch pass (`scheduler.rs` lines 166-314):
the evolving task store plus the local counters, the `scheduled_any` flag
and the ids handed to `join_set.spawn` this iteration. -/
structure DispatchAcc where
  tasks : List CoworkTask
  running_total : Nat
  has_workspace_write_running : Bool
  scheduled_any : Bool
  dispatched : List String
deriving DecidableEq, Repr

/-- One dispatch iteration step over the remaining `task_order`
(`scheduler.rs` lines 184-309).  Each candidate is read from the stale
pre-pass snapshot `snap`; an unknown assignee aborts the whole pass with a
Validation error (the store keeps the updates made so far).  The source's
`Draft → Ready` promotion before `Running` is overwritten on the next line
and hence not observable.  `running_total >= max_parallel` is a `break`. -/
def dispatchGo (now : Int) (roster : List CoworkRosterMember) (snap : List CoworkTask)
    (maxPar : Nat) : List String → DispatchAcc → DispatchAcc × Option BitFunError
  | [], acc => (acc, none)
  | tid :: rest, acc =>
    if acc.running_total ≥ maxPar then (acc, none)
    else
      match findTask snap tid with
      | none => dispatchGo now roster snap maxPar rest acc
      | some t0 =>
        if !(t0.state == CoworkTaskState.Draft || t0.state == CoworkTaskState.Ready) then
          dispatchGo now roster snap maxPar rest acc
        else if !(deps_completed snap t0) then
          dispatchGo now roster snap maxPar rest acc
        else if !(hitlOk t0) then
          dispatchGo now roster snap maxPar rest acc
        else if t0.resource_mode == CoworkTaskResourceMode.WorkspaceWrite &&
            acc.has_workspace_write_running then
          dispatchGo now roster snap maxPar rest acc
        else
          match roster.find? (fun m => m.id == t0.assignee) with
          | none =>
            (acc, some (BitFunError.Validation ("Assignee not found in roster: " ++ t0.assignee)))
          | some _ =>
            let task := { t0 with
                          state := CoworkTaskState.Running,
                          started_at_ms := some now,
                          updated_at_ms := now }
            dispatchGo now roster snap maxPar rest
              { tasks := updateTaskIn acc.tasks task
                running_total := acc.running_total + 1
                has_workspace_write_running :=
                  acc.has_workspace_write_running ||
                    t0.resource_mode == CoworkTaskResourceMode.WorkspaceWrite
                scheduled_any := true
                dispatched := acc.dispatched ++ [t0.id] }

/-- The whole dispatch pass, with its counters initialised from the
snapshot as in `scheduler.rs` lines 170-181. -/
def dispatchPass (now : Int) (roster : List CoworkRosterMember)
    (snap : List CoworkTask) (order : List String) : DispatchAcc × Option BitFunError :=
  dispatchGo now roster snap (maxParallel roster) order
    { tasks := snap
      running_total := runningCount snap
      has_workspace_write_running := hasWWRunningInit snap
      scheduled_any := false
      dispatched := [] }

/-- The observable outcome of one iteration of `run_scheduler_loop`
(`scheduler.rs` lines 24-314). -/
inductive LoopOutcome where
  /-- Cancellation token observed: abort units, emit `cancelled`, return. -/
  | cancelledExit
  /-- Session `Paused`: sleep briefly and re-loop. -/
  | idle
  /-- Session already `Cancelled`/`Completed`/`Error`: return, no mutation. -/
  | exitNoChange
  /-- Completion check fired: the session state written and the tasks as the
  check saw them. -/
  | finished (finalState : CoworkSessionState) (tasks : List CoworkTask)
  /-- Loop continues: tasks after the dispatch pass and the dispatched ids. -/
  | continuing (tasks : List CoworkTask) (dispatched : List String)
  /-- The iteration failed (bad dependency graph or unknown assignee); the
  caller of the loop then forces the session to `Error`. -/
  | failed (e : BitFunError)
deriving DecidableEq, Repr

/-- One full iteration of the scheduler loop (`scheduler.rs` lines 24-314):
cancellation check, session-state check, dependency validation, HITL pass,
re-read, blocking pass, re-read, completion check, dispatch pass.  The
snapshot re-reads are the already-computed intermediate task lists, since
the loop is the only sequential mutator in this model. -/
def loopIter (cancelRequested : Bool) (now : Int) (session : CoworkSession) : LoopOutcome :=
  if cancelRequested then LoopOutcome.cancelledExit
  else
    match session.state with
    | CoworkSessionState.Paused => LoopOutcome.idle
    | CoworkSessionState.Cancelled => LoopOutcome.exitNoChange
    | CoworkSessionState.Completed => LoopOutcome.exitNoChange
    | CoworkSessionState.Error => LoopOutcome.exitNoChange
    | _ =>
      match validateDeps session.tasks with
      | some e => LoopOutcome.failed e
      | none =>
        let t1 := hitlPass now session.task_order session.tasks
        let t2 := blockingPass now session.task_order t1
        if allTerminal t2 then
          LoopOutcome.finished
            (if hasFailure t2 then CoworkSessionState.Error else CoworkSessionState.Completed) t2
        else
          match dispatchPass now session.roster t2 session.task_order with
          | (_, some e) => LoopOutcome.failed e
          | (acc, none) => LoopOutcome.continuing acc.tasks acc.dispatched

/-- Total UTF-8 byte length of a string, the embedding of Rust `str::len`. -/
def utf8Len : List Char → Nat
  | [] => 0
  | c :: cs => c.utf8Size + utf8Len cs

/-- Whether byte index `i` is a character boundary of the string, the
condition under which Rust `&s[..i]` does not panic. -/
def isCharBoundary : List Char → Nat → Bool
  | _, 0 => true
  | [], _ + 1 => false
  | c :: cs, i + 1 =>
    if c.utf8Size ≤ i + 1 then isCharBoundary cs (i + 1 - c.utf8Size) else false

/-- The characters making up the first `n` bytes of the string (meaningful
when `n` is a character boundary), the embedding of Rust `&s[..n]`. -/
def utf8Take : List Char → Nat → List Char
  | [], _ => []
  | c :: cs, n => if c.utf8Size ≤ n then c :: utf8Take cs (n - c.utf8Size) else []

/-- `scheduler.rs` lines 397-402: `truncate`.  Rust compares and slices by
BYTES (`s.len()`, `&s[..max]`); slicing at a byte index that is not a
character boundary panics, modelled as `none`. -/
def truncate (s : List Char) (max : Nat) : Option (List Char) :=
  if utf8Len s ≤ max then some s
  else if isCharBoundary s max then
    some (utf8Take s max ++ "...\n[truncated]".data)
  else none

/-- The in-memory session store of `CoworkManager` (`sessions : DashMap`),
as an association list. -/
def CoworkStore := List (String × CoworkSession)

/-- `DashMap::get` on the session store. -/
def storeGet (store : CoworkStore) (sid : String) : Option CoworkSession :=
  (List.find? (fun p => p.1 == sid) store).map Prod.snd

/-- `DashMap::insert` on the session store: replace the existing entry or
append a fresh one. -/
def storeInsert : CoworkStore → String → CoworkSession → CoworkStore
  | [], sid, s => [(sid, s)]
  | (k, v) :: rest, sid, s =>
    if k == sid then (sid, s) :: rest else (k, v) :: storeInsert rest sid s

/-- `manager.rs` lines 398-423: `update_session_state` — unconditionally set
the session state (NotFound when the session is absent). -/
def update_session_state (store : CoworkStore) (sid : String)
    (st : CoworkSessionState) (now : Int) : CoworkStore × Except BitFunError Unit :=
  match storeGet store sid with
  | none => (store, Except.error (BitFunError.NotFound ("Cowork session not found: " ++ sid)))
  | some s =>
    (storeInsert store sid { s with state := st, updated_at_ms := now }, Except.ok ())

/-- `manager.rs` lines 310-313: `pause` — sets state `Paused` with no guard. -/
def pause (store : CoworkStore) (sid : String) (now : Int) :
    CoworkStore × Except BitFunError Unit :=
  update_session_state store sid CoworkSessionState.Paused now

/-- `manager.rs` lines 315-321: `cancel` — raises the cancellation token
(not represented in the store) and sets state `Cancelled` with no guard. -/
def cancel (store : CoworkStore) (sid : String) (now : Int) :
    CoworkStore × Except BitFunError Unit :=
  update_session_state store sid CoworkSessionState.Cancelled now

/-- The payload of `CoworkUpdatePlanRequest` (`types.rs`). -/
structure CoworkUpdatePlanRequest where
  cowork_session_id : String
  tasks : List CoworkTask
  task_order : List String
deriving DecidableEq, Repr

/-- `manager.rs` lines 229-273: `update_plan` — validates that every dep of
every supplied task is the id of a supplied task (first offence reported as
a Validation error, the store untouched), then replaces tasks and order and
sets state `Ready` with no guard on the previous state. -/
def update_plan (store : CoworkStore) (req : CoworkUpdatePlanRequest) (now : Int) :
    CoworkStore × Except BitFunError Unit :=
  match storeGet store req.cowork_session_id with
  | none =>
    (store,
      Except.error (BitFunError.NotFound
        ("Cowork session not found: " ++ req.cowork_session_id)))
  | some s =>
    match firstBadDep req.tasks req.tasks with
    | some p => (store, Except.error (BitFunError.Validation (badDepMsg p.1 p.2)))
    | none =>
      let order :=
        if req.task_order.isEmpty then req.tasks.map (fun t => t.id) else req.task_order
      (storeInsert store req.cowork_session_id
        { s with tasks := req.tasks, task_order := order,
                 state := CoworkSessionState.Ready, updated_at_ms := now },
        Except.ok ())

/-- `manager.rs` lines 275-297, the synchronous part of `start`: no-op when
the session is already `Running`, otherwise set state `Running` (the loop is
then spawned).  The returned flag records whether a loop was launched. -/
def startTransition (store : CoworkStore) (sid : String) (now : Int) :
    CoworkStore × Except BitFunError Bool :=
  match storeGet store sid with
  | none =>
    (store,
      Except.error (BitFunError.NotFound ("Cowork session runtime not found: " ++ sid)))
  | some s =>
    if s.state == CoworkSessionState.Running then (store, Except.ok false)
    else
      match update_session_state store sid CoworkSessionState.Running now with
      | (store2, Except.ok ()) => (store2, Except.ok true)
      | (store2, Except.error e) => (store2, Except.error e)

/-- `manager.rs` lines 133-145, the first phase of `generate_plan`: set the
session state to `Planning` unconditionally (before the planner is called). -/
def generate_plan_enter (store : CoworkStore) (sid : String) (now : Int) :
    CoworkStore × Except BitFunError Unit :=
  match storeGet store sid with
  | none =>
    (store, Except.error (BitFunError.NotFound ("Cowork session not found: " ++ sid)))
  | some s =>
    (storeInsert store sid { s with state := CoworkSessionState.Planning, updated_at_ms := now },
      Except.ok ())

/-- `manager.rs` lines 323-366, `submit_user_input` applied to the task
list: store the answers on the addressed task and move it to `Ready` only
when it was `WaitingUserInput`; `none` models the NotFound error. -/
def submit_user_input_tasks (now : Int) (task_id : String) (answers : List String) :
    List CoworkTask → Option (List CoworkTask)
  | [] => none
  | t :: rest =>
    if t.id == task_id then
      let t2 := { t with user_answers := answers, updated_at_ms := now }
      some ((if t.state = CoworkTaskState.WaitingUserInput then
              { t2 with state := CoworkTaskState.Ready } else t2) :: rest)
    else
      (submit_user_input_tasks now task_id answers rest).map (fun l => t :: l)

/-- `planning.rs`: `PlanTaskDraft` (the planner collaborator's draft task;
after `parse_plan_json` the `deps` entries have the form `idx:N`). -/
structure PlanTaskDraft where
  title : String
  description : String
  deps : List String
  assignee_role : Option String
  resource_mode : Option String
  questions : Option (List String)
deriving DecidableEq, Repr

/-- The decimal digit character for `d < 10`. -/
def digitChar (d : Nat) : Char := Char.ofNat (48 + d)

/-- Decimal printing of a natural number (most significant digit first),
the embedding of Rust `format!` of a `usize`.  The extra fuel argument
keeps the recursion structural (any fuel ≥ n gives the digits; the
fuel-exhausted arm is reached only for `n < 10`, where it is correct). -/
def natDigitsAux : Nat → Nat → List Char → List Char
  | 0, n, acc => digitChar n :: acc
  | fuel + 1, n, acc =>
    if n < 10 then digitChar n :: acc
    else natDigitsAux fuel (n / 10) (digitChar (n % 10) :: acc)

/-- Decimal digits of a natural number. -/
def natDigits (n : Nat) : List Char := natDigitsAux n n []

/-- `planning.rs` line 161: the temporary dependency string `format!("idx:{}", i)`. -/
def mkIdxDep (i : Nat) : String :=
  String.mk ( 'i' :: 'd' :: 'x' :: ':' :: natDigits i)

/-- `dep.strip_prefix("idx:")` on the character representation. -/
def stripIdx (dep : String) : Option (List Char) :=
  match dep.data with
  | c1 :: c2 :: c3 :: c4 :: rest =>
    if c1 = 'i' ∧ c2 = 'd' ∧ c3 = 'x' ∧ c4 = ':' then some rest else none
  | _ => none

/-- One step of decimal parsing with an accumulator. -/
def parseNatCore : List Char → Nat → Option Nat
  | [], acc => some acc
  | c :: cs, acc =>
    if c.isDigit then parseNatCore cs (acc * 10 + (c.toNat - 48)) else none

/-- Rust `str::parse::<usize>` restricted to plain digit strings (the only
form produced by `format!("idx:{}", i)`; the optional leading sign Rust also
accepts never arises from that producer).  Empty input is an error. -/
def parseNatChars : List Char → Option Nat
  | [] => none
  | c :: cs => parseNatCore (c :: cs) 0

/-- `manager.rs` lines 191-205, the per-dependency resolution: a dep of the
form `idx:N` with `N` in range of the generated-id list is rewritten to the
id at position `N`; ANY other dep — `idx:N` out of range included — is kept
verbatim (`resolved.push(dep.clone())`), with no error. -/
def resolveDep (id_by_index : List String) (dep : String) : String :=
  match stripIdx dep with
  | some digits =>
    match parseNatChars digits with
    | some i =>
      match id_by_index.get? i with
      | some tid => tid
      | none => dep
    | none => dep
  | none => dep

/-- `manager.rs` lines 440-447: `resolve_assignee` — case-insensitive match
of the draft's role name against roster role names or ids. -/
def resolve_assignee (roster : List CoworkRosterMember) (assignee_role : Option String) :
    Option String :=
  match assignee_role with
  | none => none
  | some role =>
    (roster.find? (fun m =>
      m.role.toLower == role.toLower || m.id.toLower == role.toLower)).map (fun m => m.id)

/-- `manager.rs` lines 162-187, the task built from one draft.  The Rust
struct literal does NOT mention `resource_mode` and never reads the draft's
`resource_mode` hint; since `CoworkTask` requires the field, it is modelled
here by the serde default `default_task_resource_mode` (= `WorkspaceWrite`).
`idOf idx` stands for `format!("task-{}-{}", idx + 1, uuid)`. -/
def draftToTask (now : Int) (roster : List CoworkRosterMember) (idOf : Nat → String)
    (idx : Nat) (t : PlanTaskDraft) : CoworkTask :=
  { id := idOf idx
    title := t.title
    description := t.description
    deps := t.deps
    assignee := (resolve_assignee roster t.assignee_role).getD "developer"
    state := CoworkTaskState.Draft
    resource_mode := default_task_resource_mode
    questions := t.questions.getD []
    user_answers := []
    output_text := ""
    error := none
    created_at_ms := now
    updated_at_ms := now
    started_at_ms := none
    finished_at_ms := none }

/-- `manager.rs` lines 162-205: build the tasks from the drafts, then
resolve each `idx:N` dependency against the generated ids, position by
position in the draft order.  This phase cannot fail. -/
def generate_plan_tasks (now : Int) (roster : List CoworkRosterMember)
    (idOf : Nat → String) (drafts : List PlanTaskDraft) : List CoworkTask :=
  let tasks := drafts.enum.map (fun p => draftToTask now roster idOf p.1 p.2)
  let id_by_index := tasks.map (fun t => t.id)
  tasks.map (fun t => { t with deps := t.deps.map (resolveDep id_by_index) })

/-- `manager.rs` lines 207-213: install the generated plan on the session
(state becomes `Ready`, order is the generated-id order). -/
def generate_plan_install (s : CoworkSession) (now : Int) (tasks : List CoworkTask) :
    CoworkSession :=
  { s with tasks := tasks, task_order := tasks.map (fun t => t.id),
           state := CoworkSessionState.Ready, updated_at_ms := now }

/-! ## Auxiliary predicates used by the statements -/

/-- The session state stored for `sid`, if any. -/
def sessionStateAt (store : CoworkStore) (sid : String) : Option CoworkSessionState :=
  (storeGet store sid).map (fun s => s.state)

/-- A task the blocking/dispatch passes may still act on. -/
def isDR (t : CoworkTask) : Bool :=
  t.state == CoworkTaskState.Draft || t.state == CoworkTaskState.Ready

/-- Number of `Draft`/`Ready` tasks (the fuel of blocking propagation). -/
def countDR (tasks : List CoworkTask) : Nat :=
  (tasks.filter isDR).length

/-- No `Draft`/`Ready` task has a dependency in `Failed`/`Cancelled`/`Blocked`
state — the stable outcome of blocking propagation. -/
def noBlockable (tasks : List CoworkTask) : Bool :=
  tasks.all (fun t => !(isDR t) || (deps_failed tasks t).isNone)

/-- Number of `Draft`/`Ready` tasks of `l` with a failed dependency
(looked up in `snap`). -/
def countQual (snap : List CoworkTask) (l : List CoworkTask) : Nat :=
  (l.filter (fun t => isDR t && (deps_failed snap t).isSome)).length

/-- The blocking pass when `task_order` lists exactly the task ids: every
task is run through the blocking rule against the pre-pass snapshot. -/
def blockingPassAll (now : Int) (tasks : List CoworkTask) : List CoworkTask :=
  tasks.map (fun t => (blockingMod now tasks t).getD t)

/-- A per-task rule `f` applied only to the tasks whose id was already
processed (the bookkeeping device relating a `stalePass` over `task_order`
to a plain `map`). -/
def applyModIn (f : CoworkTask → Option CoworkTask) (S : List String) (t : CoworkTask) :
    CoworkTask :=
  if t.id ∈ S then (f t).getD t else t

/-- The task list carried by a loop outcome (empty for the outcomes that
carry none). -/
def loopTasks : LoopOutcome → List CoworkTask
  | LoopOutcome.finished _ ts => ts
  | LoopOutcome.continuing ts _ => ts
  | _ => []

/-- Whether a task id names a workspace-write task of the snapshot. -/
def depWW (snap : List CoworkTask) (tid : String) : Bool :=
  match findTask snap tid with
  | some t => t.resource_mode == CoworkTaskResourceMode.WorkspaceWrite
  | none => false

/-- How many of the dispatched ids are workspace-write tasks. -/
def wwDispCount (snap : List CoworkTask) (dispatched : List String) : Nat :=
  (dispatched.filter (depWW snap)).length

/-- The invariant that carries the workspace-write exclusivity argument
through the dispatch pass. -/
def DispatchInv (snap : List CoworkTask) (acc : DispatchAcc) : Prop :=
  (acc.has_workspace_write_running = false → countWW acc.tasks = 0)
  ∧ countWW acc.tasks ≤ max 1 (countWW snap)
  ∧ (acc.has_workspace_write_running = false → wwDispCount snap acc.dispatched = 0)
  ∧ wwDispCount snap acc.dispatched ≤ 1
  ∧ (hasWWRunningInit snap = true →
      acc.has_workspace_write_running = true ∧ wwDispCount snap acc.dispatched = 0)

/-- `10 ^ (number of decimal digits)`, following the recursion of
`natDigitsGo`. -/
def tenPow (n : Nat) : Nat :=
  if n < 10 then 10 else tenPow (n / 10) * 10
termination_by n
decreasing_by exact Nat.div_lt_self (by omega) (by omega)

/-! ## Concrete fixtures for witnesses and counterexamples -/

/-- A task with the given id, state and dependencies and neutral remaining
fields. -/
def mkTask (i : String) (st : CoworkTaskState) (deps : List String) : CoworkTask :=
  { id := i
    title := i
    description := ""
    deps := deps
    assignee := "developer"
    state := st
    resource_mode := CoworkTaskResourceMode.WorkspaceWrite
    questions := []
    user_answers := []
    output_text := ""
    error := none
    created_at_ms := 0
    updated_at_ms := 0
    started_at_ms := none
    finished_at_ms := none }

/-- The `developer` member of the default roster (`manager.rs` lines 60-66). -/
def devMember : CoworkRosterMember :=
  { id := "developer"
    role := "Developer"
    agent_type := some "developer_agent"
    subagent_type := "Explore"
    description := "Execute implementation tasks" }

/-- A one-member session around the given tasks. -/
def mkSession (tasks : List CoworkTask) (order : List String)
    (st : CoworkSessionState) : CoworkSession :=
  { cowork_session_id := "s"
    goal := "demo goal"
    state := st
    roster := [devMember]
    workspace_root := none
    task_order := order
    tasks := tasks
    created_at_ms := 0
    updated_at_ms := 0 }

/-- A session whose single task already completed. -/
def c2Sess : CoworkSession :=
  mkSession [mkTask "t1" CoworkTaskState.Completed []] ["t1"] CoworkSessionState.Running

/-- A store holding one empty draft session. -/
def c3Store : CoworkStore := [("s", mkSession [] [] CoworkSessionState.Draft)]

/-- An `updatePlan` request whose task depends on a non-existent id. -/
def c3Req : CoworkUpdatePlanRequest :=
  { cowork_session_id := "s"
    tasks := [mkTask "x" CoworkTaskState.Draft ["nope"]]
    task_order := [] }

/-- A COMPLETED task that still carries an unanswered question — reachable
through `updatePlan`, which accepts arbitrary task states. -/
def c4Bad : CoworkTask :=
  { mkTask "t1" CoworkTaskState.Completed [] with questions := ["q"] }

/-- A plain terminal task (no pending questions). -/
def c4Term : CoworkTask := mkTask "t9" CoworkTaskState.Completed []

/-- A two-level failure chain: `c` failed, `b` depends on `c`, `a` depends
on `b`. -/
def c5Tasks : List CoworkTask :=
  [mkTask "c" CoworkTaskState.Failed [],
   mkTask "b" CoworkTaskState.Draft ["c"],
   mkTask "a" CoworkTaskState.Draft ["b"]]

/-- The running session around the failure chain. -/
def c5Sess : CoworkSession := mkSession c5Tasks ["c", "b", "a"] CoworkSessionState.Running

/-- A store holding one already-Completed session. -/
def c6Store : CoworkStore := [("s", mkSession [] [] CoworkSessionState.Completed)]

/-- Deterministic generated ids standing in for `task-{idx+1}-{uuid}`. -/
def idOf0 (i : Nat) : String := String.mk ( 't' :: natDigits i)

/-- A planner draft whose only dependency index is out of range. -/
def c7Draft : PlanTaskDraft :=
  { title := "t"
    description := ""
    deps := [mkIdxDep 5]
    assignee_role := none
    resource_mode := none
    questions := none }

/-- A planner draft carrying an explicit `read_only` resource-mode hint. -/
def c8Draft : PlanTaskDraft :=
  { title := "t"
    description := ""
    deps := []
    assignee_role := none
    resource_mode := some "read_only"
    questions := none }

/-- 1999 ASCII characters followed by a two-byte character: byte length
2001, and byte index 2000 falls inside the final character. -/
def c9Str : List Char := List.replicate 1999 'a' ++ ['é']

/-- A store holding a Ready session with an empty task list. -/
def c10Store : CoworkStore := [("s", mkSession [] [] CoworkSessionState.Ready)]

/-! ## Basic lemmas about the store and task-list primitives -/

theorem findTask_some_id {tasks : List CoworkTask} {tid : String} {t : CoworkTask}
    (h : findTask tasks tid = some t) : t.id = tid := by
  have := List.find?_some h
  exact eq_of_beq this

theorem findTask_cons_pos {t1 : CoworkTask} {rest : List CoworkTask} {tid0 : String}
    (h : (t1.id == tid0) = true) : findTask (t1 :: rest) tid0 = some t1 := by
  simp [findTask, List.find?_cons, h]

theorem findTask_cons_neg {t1 : CoworkTask} {rest : List CoworkTask} {tid0 : String}
    (h : (t1.id == tid0) = false) : findTask (t1 :: rest) tid0 = findTask rest tid0 := by
  simp [findTask, List.find?_cons, h]

theorem findTask_updateTaskIn_ne (l : List CoworkTask) (nt : CoworkTask) (tid : String)
    (h : nt.id ≠ tid) : findTask (updateTaskIn l nt) tid = findTask l tid := by
  induction l with
  | nil => rfl
  | cons t rest ih =>
    rw [updateTaskIn]
    by_cases he : (t.id == nt.id) = true
    · rw [if_pos he]
      have ht : t.id = nt.id := eq_of_beq he
      have hnt : (nt.id == tid) = false := beq_eq_false_iff_ne.mpr h
      have htt : (t.id == tid) = false := by rw [ht]; exact hnt
      simp [findTask, List.find?_cons, hnt, htt]
    · rw [if_neg he]
      by_cases h2 : (t.id == tid) = true
      · simp [findTask, List.find?_cons, h2]
      · have h2f : (t.id == tid) = false := by
          cases hb : (t.id == tid) with
          | false => rfl
          | true => exact absurd hb h2
        simpa [findTask, List.find?_cons, h2f] using ih

theorem countWW_cons (t : CoworkTask) (l : List CoworkTask) :
    countWW (t :: l) = countWW l + (if isWWRunning t then 1 else 0) := by
  by_cases h : isWWRunning t = true
  · simp [countWW, List.filter_cons, h]
  · simp [countWW, List.filter_cons, h]

theorem countWW_updateTaskIn_le (l : List CoworkTask) (nt : CoworkTask) :
    countWW (updateTaskIn l nt) ≤ countWW l + (if isWWRunning nt then 1 else 0) := by
  induction l with
  | nil => simp [updateTaskIn]
  | cons t rest ih =>
    rw [updateTaskIn]
    by_cases he : (t.id == nt.id) = true
    · rw [if_pos he, countWW_cons, countWW_cons]
      generalize (if isWWRunning nt then 1 else 0) = x
      generalize (if isWWRunning t then 1 else 0) = y
      omega
    · rw [if_neg he, countWW_cons, countWW_cons]
      omega

theorem hasWWRunningInit_false_iff (tasks : List CoworkTask) :
    hasWWRunningInit tasks = false ↔ countWW tasks = 0 := by
  induction tasks with
  | nil => simp [hasWWRunningInit, countWW]
  | cons t rest ih =>
    rw [countWW_cons]
    by_cases h : isWWRunning t = true
    · simp [hasWWRunningInit, h]
    · simp only [hasWWRunningInit, List.any_cons] at *
      simp [h, ih]

theorem wwDispCount_append (snap : List CoworkTask) (d : List String) (tid : String) :
    wwDispCount snap (d ++ [tid]) =
      wwDispCount snap d + (if depWW snap tid then 1 else 0) := by
  by_cases h : depWW snap tid = true
  · simp [wwDispCount, List.filter_append, List.filter_cons, h]
  · simp [wwDispCount, List.filter_append, List.filter_cons, h]

theorem storeGet_storeInsert_self (store : CoworkStore) (sid : String) (v : CoworkSession) :
    storeGet (storeInsert store sid v) sid = some v := by
  induction store with
  | nil => simp [storeGet, storeInsert, List.find?]
  | cons p rest ih =>
    match p with
    | (k, w) =>
      rw [storeInsert]
      by_cases he : (k == sid) = true
      · rw [if_pos he]
        simp [storeGet, List.find?]
      · rw [if_neg he]
        have h2f : (k == sid) = false := by
          cases hb : (k == sid) with
          | false => rfl
          | true => exact absurd hb he
        simp only [storeGet, List.find?, h2f]
        exact ih

theorem stalePass_empty_snap (f : CoworkTask → Option CoworkTask) (order : List String)
    (tasks0 : List CoworkTask) : stalePass f [] order tasks0 = tasks0 := by
  induction order generalizing tasks0 with
  | nil => rfl
  | cons tid rest ih =>
    rw [stalePass]
    exact ih tasks0

/-! ## C1: workspace-write exclusivity of the dispatch pass -/

theorem depWW_of_findTask {snap : List CoworkTask} {t0 : CoworkTask}
    (hft : findTask snap t0.id = some t0) :
    depWW snap t0.id = (t0.resource_mode == CoworkTaskResourceMode.WorkspaceWrite) := by
  simp [depWW, hft]

theorem isWWRunning_set_running (t0 : CoworkTask) (now : Int) :
    isWWRunning { t0 with
                  state := CoworkTaskState.Running,
                  started_at_ms := some now,
                  updated_at_ms := now } =
      (t0.resource_mode == CoworkTaskResourceMode.WorkspaceWrite) := by
  simp [isWWRunning]

theorem DispatchInv_step (snap : List CoworkTask) (acc : DispatchAcc) (t0 : CoworkTask)
    (now : Int) (hft : findTask snap t0.id = some t0)
    (hskip : (t0.resource_mode == CoworkTaskResourceMode.WorkspaceWrite &&
      acc.has_workspace_write_running) = false)
    (h : DispatchInv snap acc) :
    DispatchInv snap
      { tasks := updateTaskIn acc.tasks
          { t0 with
            state := CoworkTaskState.Running,
            started_at_ms := some now,
            updated_at_ms := now }
        running_total := acc.running_total + 1
        has_workspace_write_running :=
          acc.has_workspace_write_running ||
            (t0.resource_mode == CoworkTaskResourceMode.WorkspaceWrite)
        scheduled_any := true
        dispatched := acc.dispatched ++ [t0.id] } := by
  obtain ⟨h1, h2, h3, h4, h5⟩ := h
  have hcount := countWW_updateTaskIn_le acc.tasks
    { t0 with
      state := CoworkTaskState.Running,
      started_at_ms := some now,
      updated_at_ms := now }
  rw [isWWRunning_set_running] at hcount
  have hdisp := wwDispCount_append snap acc.dispatched t0.id
  rw [depWW_of_findTask hft] at hdisp
  cases hm : (t0.resource_mode == CoworkTaskResourceMode.WorkspaceWrite) with
  | true =>
    have hflag : acc.has_workspace_write_running = false := by
      rw [hm] at hskip; simpa using hskip
    have hz : countWW acc.tasks = 0 := h1 hflag
    have hdz : wwDispCount snap acc.dispatched = 0 := h3 hflag
    rw [hm] at hcount hdisp
    simp only [eq_self_iff_true, if_true] at hcount hdisp
    refine ⟨?_, ?_, ?_, ?_, ?_⟩
    · intro hfalse
      simp at hfalse
    · dsimp only
      refine le_trans ?_ (Nat.le_max_left 1 (countWW snap))
      omega
    · intro hfalse
      simp at hfalse
    · dsimp only
      omega
    · intro hinit
      exact absurd (h5 hinit).1 (by rw [hflag]; simp)
  | false =>
    rw [hm] at hcount hdisp
    simp only [Bool.false_eq_true, if_false, Nat.add_zero] at hcount hdisp
    refine ⟨?_, ?_, ?_, ?_, ?_⟩
    · intro hfalse
      simp only [Bool.or_false] at hfalse
      have := h1 hfalse
      dsimp only
      omega
    · dsimp only
      exact le_trans hcount h2
    · intro hfalse
      simp only [Bool.or_false] at hfalse
      dsimp only
      rw [hdisp]
      exact h3 hfalse
    · dsimp only
      rw [hdisp]
      exact h4
    · intro hinit
      obtain ⟨ha, hb⟩ := h5 hinit
      refine ⟨by dsimp only; rw [ha]; simp, ?_⟩
      dsimp only
      rw [hdisp]
      exact hb

theorem dispatchGo_inv (now : Int) (roster : List CoworkRosterMember)
    (snap : List CoworkTask) (maxPar : Nat) :
    ∀ (order : List String) (acc : DispatchAcc), DispatchInv snap acc →
      DispatchInv snap (dispatchGo now roster snap maxPar order acc).1 := by
  intro order
  induction order with
  | nil => intro acc h; exact h
  | cons tid rest ih =>
    intro acc h
    rw [dispatchGo]
    split
    · exact h
    · cases hft : findTask snap tid with
      | none => exact ih acc h
      | some t0 =>
        have hid : t0.id = tid := findTask_some_id hft
        dsimp only
        split
        · exact ih acc h
        · split
          · exact ih acc h
          · split
            · exact ih acc h
            · split
              · exact ih acc h
              · next hskip =>
                cases hmem : roster.find? (fun m => m.id == t0.assignee) with
                | none => exact h
                | some m =>
                  have hskipf : (t0.resource_mode == CoworkTaskResourceMode.WorkspaceWrite &&
                      acc.has_workspace_write_running) = false := by
                    cases hb : (t0.resource_mode == CoworkTaskResourceMode.WorkspaceWrite &&
                        acc.has_workspace_write_running) with
                    | false => rfl
                    | true => exact absurd hb hskip
                  have hft0 : findTask snap t0.id = some t0 := by rw [hid]; exact hft
                  exact ih _ (DispatchInv_step snap acc t0 now hft0 hskipf h)

/-- C1.  During the dispatch pass of the scheduler loop, a workspace-write
task is never set `Running` while another workspace-write task is already
`Running`: starting from a snapshot with no running workspace-write task the
pass ends with at most one, and starting from a snapshot that already has
one (or more) the pass dispatches no workspace-write task at all (so it
never creates a second concurrent workspace-write execution). -/
theorem c1_workspace_write_exclusive (now : Int) (roster : List CoworkRosterMember)
    (snap : List CoworkTask) (order : List String) :
    countWW (dispatchPass now roster snap order).1.tasks ≤ max 1 (countWW snap)
    ∧ wwDispCount snap (dispatchPass now roster snap order).1.dispatched
        ≤ (if countWW snap = 0 then 1 else 0) := by
  simp only [dispatchPass]
  have hinv0 : DispatchInv snap
      { tasks := snap
        running_total := runningCount snap
        has_workspace_write_running := hasWWRunningInit snap
        scheduled_any := false
        dispatched := [] } := by
    refine ⟨?_, Nat.le_max_right 1 _, ?_, ?_, ?_⟩
    · intro hfalse
      exact (hasWWRunningInit_false_iff snap).mp hfalse
    · intro _; rfl
    · simp [wwDispCount]
    · intro hinit
      exact ⟨hinit, rfl⟩
  have h := dispatchGo_inv now roster snap (maxParallel roster) order _ hinv0
  obtain ⟨h1, h2, h3, h4, h5⟩ := h
  refine ⟨h2, ?_⟩
  by_cases hz : countWW snap = 0
  · rw [if_pos hz]
    exact h4
  · rw [if_neg hz]
    have hinit : hasWWRunningInit snap = true := by
      cases hb : hasWWRunningInit snap with
      | true => rfl
      | false => exact absurd ((hasWWRunningInit_false_iff snap).mp hb) hz
    have := (h5 hinit).2
    omega

/-! ## C2: the completion check -/

/-- C2.  When the scheduler loop's completion check observes a snapshot (the
re-read after the HITL and blocking passes) in which every task is terminal
(`Completed`/`Failed`/`Cancelled`/`Blocked`), the iteration ends the loop
with session state `Error` if some task is `Failed` or `Blocked` and
`Completed` otherwise; in particular with no failed or blocked task the
session ends `Completed`. -/
theorem c2_completion_check (now : Int) (s : CoworkSession)
    (hrun : s.state = CoworkSessionState.Running)
    (hval : validateDeps s.tasks = none)
    (hterm : allTerminal (blockingPass now s.task_order (hitlPass now s.task_order s.tasks)) = true) :
    loopIter false now s =
      LoopOutcome.finished
        (if hasFailure (blockingPass now s.task_order (hitlPass now s.task_order s.tasks))
          then CoworkSessionState.Error else CoworkSessionState.Completed)
        (blockingPass now s.task_order (hitlPass now s.task_order s.tasks))
    ∧ (hasFailure (blockingPass now s.task_order (hitlPass now s.task_order s.tasks)) = false →
        loopIter false now s =
          LoopOutcome.finished CoworkSessionState.Completed
            (blockingPass now s.task_order (hitlPass now s.task_order s.tasks))) := by
  have hmain : loopIter false now s =
      LoopOutcome.finished
        (if hasFailure (blockingPass now s.task_order (hitlPass now s.task_order s.tasks))
          then CoworkSessionState.Error else CoworkSessionState.Completed)
        (blockingPass now s.task_order (hitlPass now s.task_order s.tasks)) := by
    unfold loopIter
    rw [hrun, hval]
    simp only [Bool.false_eq_true, if_false, hterm, if_true]
  refine ⟨hmain, ?_⟩
  intro h0
  rw [hmain, h0]
  simp

theorem c2_completion_check_witness :
    validateDeps c2Sess.tasks = none
    ∧ allTerminal (blockingPass 0 c2Sess.task_order (hitlPass 0 c2Sess.task_order c2Sess.tasks)) = true
    ∧ loopIter false 0 c2Sess =
        LoopOutcome.finished CoworkSessionState.Completed
          (blockingPass 0 c2Sess.task_order (hitlPass 0 c2Sess.task_order c2Sess.tasks)) :=
  ⟨by decide, by decide,
    (c2_completion_check 0 c2Sess (by decide) (by decide) (by decide)).2 (by decide)⟩

/-! ## C3: updatePlan rejects unknown dependencies -/

theorem firstBadDep_sound (all : List CoworkTask) :
    ∀ (l : List CoworkTask) (tid dep : String),
      firstBadDep all l = some (tid, dep) →
      ∃ t, t ∈ l ∧ t.id = tid ∧ dep ∈ t.deps ∧ findTask all dep = none := by
  intro l
  induction l with
  | nil => intro tid dep h; simp [firstBadDep] at h
  | cons t rest ih =>
    intro tid dep h
    rw [firstBadDep] at h
    cases hf : t.deps.find? (fun d => (findTask all d).isNone) with
    | some d =>
      rw [hf] at h
      simp only [Option.some.injEq, Prod.mk.injEq] at h
      obtain ⟨h1, h2⟩ := h
      subst h1; subst h2
      refine ⟨t, List.mem_cons_self t rest, rfl, List.mem_of_find?_eq_some hf, ?_⟩
      have := List.find?_some hf
      exact Option.isNone_iff_eq_none.mp this
    | none =>
      rw [hf] at h
      obtain ⟨t2, ht2, h1, h2, h3⟩ := ih tid dep h
      exact ⟨t2, List.mem_cons_of_mem t ht2, h1, h2, h3⟩

theorem firstBadDep_isSome (all : List CoworkTask) :
    ∀ (l : List CoworkTask),
      (l.any (fun t => t.deps.any (fun dep => (findTask all dep).isNone))) = true →
      (firstBadDep all l).isSome = true := by
  intro l
  induction l with
  | nil => intro h; simp at h
  | cons t rest ih =>
    intro h
    rw [List.any_cons] at h
    rw [firstBadDep]
    cases hf : t.deps.find? (fun d => (findTask all d).isNone) with
    | some d => rfl
    | none =>
      apply ih
      cases hor : t.deps.any (fun dep => (findTask all dep).isNone) with
      | false =>
        rw [hor] at h
        simpa using h
      | true =>
        exfalso
        rw [List.any_eq_true] at hor
        obtain ⟨d, hd, hdp⟩ := hor
        have : (t.deps.find? (fun d => (findTask all d).isNone)).isSome = true :=
          List.find?_isSome.mpr ⟨d, hd, hdp⟩
        rw [hf] at this
        simp at this

/-- C3.  An `updatePlan` request in which some supplied task has a `deps`
entry that is not the id of any supplied task is rejected with a Validation
error naming an offending task and its unknown dependency, and the store —
hence the stored session — is returned exactly unchanged. -/
theorem c3_update_plan_rejects (store : CoworkStore) (req : CoworkUpdatePlanRequest)
    (now : Int) (s : CoworkSession)
    (hs : storeGet store req.cowork_session_id = some s)
    (hbad : (req.tasks.any (fun t =>
      t.deps.any (fun dep => (findTask req.tasks dep).isNone))) = true) :
    ∃ tid dep,
      (∃ t, t ∈ req.tasks ∧ t.id = tid ∧ dep ∈ t.deps ∧ findTask req.tasks dep = none)
      ∧ update_plan store req now =
          (store, Except.error (BitFunError.Validation (badDepMsg tid dep))) := by
  have hsome := firstBadDep_isSome req.tasks req.tasks hbad
  cases hfb : firstBadDep req.tasks req.tasks with
  | none => rw [hfb] at hsome; simp at hsome
  | some p =>
    obtain ⟨tid, dep⟩ := p
    refine ⟨tid, dep, firstBadDep_sound req.tasks req.tasks tid dep hfb, ?_⟩
    unfold update_plan
    rw [hs, hfb]

theorem c3_update_plan_rejects_witness :
    storeGet c3Store c3Req.cowork_session_id = some (mkSession [] [] CoworkSessionState.Draft)
    ∧ (c3Req.tasks.any (fun t =>
        t.deps.any (fun dep => (findTask c3Req.tasks dep).isNone))) = true
    ∧ ∃ tid dep,
        (∃ t, t ∈ c3Req.tasks ∧ t.id = tid ∧ dep ∈ t.deps ∧ findTask c3Req.tasks dep = none)
        ∧ update_plan c3Store c3Req 0 =
            (c3Store, Except.error (BitFunError.Validation (badDepMsg tid dep))) :=
  ⟨by decide, by decide,
    c3_update_plan_rejects c3Store c3Req 0 (mkSession [] [] CoworkSessionState.Draft)
      (by decide) (by decide)⟩

/-! ## C10: a session with no tasks completes immediately -/

/-- C10.  Invoking `start` on a session with an empty task list (and not
already `Running`) sets the session `Running` and launches the loop, whose
first iteration finds the completion check vacuously true (`all` of an empty
list) with no failure, so the session goes straight to `Completed` — never
`Error`, with no task dispatched — even though no plan was ever installed. -/
theorem c10_empty_session_completes (store : CoworkStore) (sid : String) (s : CoworkSession)
    (now now2 : Int) (hs : storeGet store sid = some s) (hempty : s.tasks = [])
    (hnr : s.state ≠ CoworkSessionState.Running) :
    startTransition store sid now =
      (storeInsert store sid { s with state := CoworkSessionState.Running, updated_at_ms := now },
        Except.ok true)
    ∧ sessionStateAt (startTransition store sid now).1 sid = some CoworkSessionState.Running
    ∧ loopIter false now2 { s with state := CoworkSessionState.Running, updated_at_ms := now } =
        LoopOutcome.finished CoworkSessionState.Completed [] := by
  have hbeq : (s.state == CoworkSessionState.Running) = false := beq_eq_false_iff_ne.mpr hnr
  have h1 : startTransition store sid now =
      (storeInsert store sid { s with state := CoworkSessionState.Running, updated_at_ms := now },
        Except.ok true) := by
    unfold startTransition update_session_state
    rw [hs]
    dsimp only
    rw [hbeq]
    simp
  refine ⟨h1, ?_, ?_⟩
  · rw [h1]
    simp [sessionStateAt, storeGet_storeInsert_self]
  · unfold loopIter
    simp only [Bool.false_eq_true, if_false]
    have htasks : ({ s with state := CoworkSessionState.Running, updated_at_ms := now }).tasks
        = [] := hempty
    rw [htasks]
    simp only [validateDeps, firstBadDep, Option.map_none]
    rw [hitlPass, stalePass_empty_snap]
    rw [blockingPass, stalePass_empty_snap]
    simp [allTerminal, hasFailure]

theorem c10_empty_session_completes_witness :
    storeGet c10Store "s" = some (mkSession [] [] CoworkSessionState.Ready)
    ∧ loopIter false 7
        { mkSession [] [] CoworkSessionState.Ready with
          state := CoworkSessionState.Running, updated_at_ms := 3 } =
        LoopOutcome.finished CoworkSessionState.Completed [] :=
  ⟨by decide,
    (c10_empty_session_completes c10Store "s" (mkSession [] [] CoworkSessionState.Ready) 3 7
      (by decide) (by decide) (by decide)).2.2⟩

/-! ## C4: terminal task states -/

theorem stalePass_findTask_eq (f : CoworkTask → Option CoworkTask) (snap : List CoworkTask)
    (tid0 : String) (t : CoworkTask)
    (hidp : ∀ u u2, f u = some u2 → u2.id = u.id)
    (hf : findTask snap tid0 = some t) (hnone : f t = none) :
    ∀ (order : List String) (tasks0 : List CoworkTask),
      findTask (stalePass f snap order tasks0) tid0 = findTask tasks0 tid0 := by
  intro order
  induction order with
  | nil => intro tasks0; rfl
  | cons tid rest ih =>
    intro tasks0
    rw [stalePass]
    cases hft : findTask snap tid with
    | none => exact ih tasks0
    | some u =>
      dsimp only
      cases hfu : f u with
      | none => exact ih tasks0
      | some u2 =>
        have hne : u2.id ≠ tid0 := by
          intro hcontra
          have hu : u.id = tid := findTask_some_id hft
          have htid : tid = tid0 := by rw [← hu, ← hidp u u2 hfu]; exact hcontra
          rw [htid, hf] at hft
          have hut : u = t := by injection hft with h2; exact h2.symm
          rw [hut, hnone] at hfu
          exact Option.noConfusion hfu
        have hstep := findTask_updateTaskIn_ne tasks0 u2 tid0 hne
        exact (ih (updateTaskIn tasks0 u2)).trans hstep

theorem terminal_not_draft_or_ready {st : CoworkTaskState} (h : isTerminalTask st = true) :
    ¬(st = CoworkTaskState.Draft ∨ st = CoworkTaskState.Ready) := by
  cases st <;> simp [isTerminalTask] at h ⊢

theorem terminal_ne_waiting {st : CoworkTaskState} (h : isTerminalTask st = true) :
    st ≠ CoworkTaskState.WaitingUserInput := by
  cases st <;> simp [isTerminalTask] at h ⊢

theorem dispatchGo_findTask_eq (now : Int) (roster : List CoworkRosterMember)
    (snap : List CoworkTask) (maxPar : Nat) (tid0 : String) (t : CoworkTask)
    (hf : findTask snap tid0 = some t) (ht : isTerminalTask t.state = true) :
    ∀ (order : List String) (acc : DispatchAcc),
      findTask (dispatchGo now roster snap maxPar order acc).1.tasks tid0 =
        findTask acc.tasks tid0 := by
  intro order
  induction order with
  | nil => intro acc; rfl
  | cons tid rest ih =>
    intro acc
    rw [dispatchGo]
    split
    · rfl
    · cases hft : findTask snap tid with
      | none => exact ih acc
      | some t0 =>
        dsimp only
        split
        · exact ih acc
        next hstate =>
          split
          · exact ih acc
          · split
            · exact ih acc
            · split
              · exact ih acc
              · cases hmem : roster.find? (fun m => m.id == t0.assignee) with
                | none => rfl
                | some m =>
                  have hdr : (t0.state == CoworkTaskState.Draft ||
                      t0.state == CoworkTaskState.Ready) = true := by
                    cases hb : (t0.state == CoworkTaskState.Draft ||
                        t0.state == CoworkTaskState.Ready) with
                    | true => rfl
                    | false => exact absurd (by rw [hb]; rfl) hstate
                  have hne : t0.id ≠ tid0 := by
                    intro hcontra
                    have hu : t0.id = tid := findTask_some_id hft
                    have htid : tid = tid0 := by rw [← hu]; exact hcontra
                    rw [htid, hf] at hft
                    have heq : t0 = t := by injection hft with h2; exact h2.symm
                    rw [heq] at hdr
                    rcases Bool.or_eq_true_iff.mp hdr with hb | hb
                    · exact absurd (eq_of_beq hb) (fun he =>
                        (terminal_not_draft_or_ready ht) (Or.inl he))
                    · exact absurd (eq_of_beq hb) (fun he =>
                        (terminal_not_draft_or_ready ht) (Or.inr he))
                  have hstep := findTask_updateTaskIn_ne acc.tasks
                    { t0 with
                      state := CoworkTaskState.Running,
                      started_at_ms := some now,
                      updated_at_ms := now } tid0 hne
                  exact (ih _).trans hstep

theorem submit_state_preserved (now : Int) (task_id : String) (answers : List String) :
    ∀ (tasks tasks2 : List CoworkTask) (tid0 : String) (t : CoworkTask),
      findTask tasks tid0 = some t → t.state ≠ CoworkTaskState.WaitingUserInput →
      submit_user_input_tasks now task_id answers tasks = some tasks2 →
      (findTask tasks2 tid0).map (fun u => u.state) = some t.state := by
  intro tasks
  induction tasks with
  | nil =>
    intro tasks2 tid0 t hfind _ hsub
    exact Option.noConfusion hsub
  | cons t1 rest ih =>
    intro tasks2 tid0 t hfind hstate hsub
    rw [submit_user_input_tasks] at hsub
    by_cases h1 : (t1.id == task_id) = true
    · rw [if_pos h1] at hsub
      dsimp only at hsub
      injection hsub with h2
      by_cases h3 : (t1.id == tid0) = true
      · have ht1 : t1 = t := by
          rw [findTask_cons_pos h3] at hfind
          injection hfind
        have hnw : ¬(t1.state = CoworkTaskState.WaitingUserInput) := by
          rw [ht1]; exact hstate
        rw [if_neg hnw] at h2
        rw [← h2]
        have h3t : (t.id == tid0) = true := by rw [← ht1]; exact h3
        simp [findTask, List.find?_cons, ht1, h3t]
      · have h3f : (t1.id == tid0) = false := by
          cases hb : (t1.id == tid0) with
          | false => rfl
          | true => exact absurd hb h3
        have hrest : findTask rest tid0 = some t := by
          rwa [findTask_cons_neg h3f] at hfind
        rw [← h2]
        simp only [findTask, List.find?_cons, apply_ite, ite_self, h3f]
        have := hrest
        unfold findTask at this
        rw [this]
        rfl
    · rw [if_neg h1] at hsub
      rcases Option.map_eq_some'.mp hsub with ⟨rest2, hrest2, hcons⟩
      by_cases h3 : (t1.id == tid0) = true
      · have ht1 : t1 = t := by
          rw [findTask_cons_pos h3] at hfind
          injection hfind
        rw [← hcons, findTask_cons_pos h3]
        simp [ht1]
      · have h3f : (t1.id == tid0) = false := by
          cases hb : (t1.id == tid0) with
          | false => rfl
          | true => exact absurd hb h3
        have hrest : findTask rest tid0 = some t := by
          rwa [findTask_cons_neg h3f] at hfind
        rw [← hcons, findTask_cons_neg h3f]
        exact ih rest2 tid0 t hrest hstate hrest2

/-- C4 is FALSE as stated: the HITL pass is not restricted to `Draft`/`Ready`
tasks.  A task in the terminal state `Completed` that carries an unanswered
question (installable through `updatePlan`, which accepts arbitrary task
states) is moved back to `WaitingUserInput` by the HITL pass. -/
theorem c4_counterexample :
    isTerminalTask c4Bad.state = true
    ∧ c4Bad.state = CoworkTaskState.Completed
    ∧ (findTask (hitlPass 0 ["t1"] [c4Bad]) "t1").map (fun u => u.state)
        = some CoworkTaskState.WaitingUserInput := by decide

/-- C4 (amended).  Once a task is terminal, its state is never changed by
the blocking pass, the dispatch pass, or `submitUserInput` (which only
transitions a `WaitingUserInput` task); the HITL pass also preserves it
PROVIDED the task's questions are empty or its answers nonempty — a
terminal task with pending unanswered questions is moved back to
`WaitingUserInput`. -/
theorem c4_terminal_preservation (now : Int) (roster : List CoworkRosterMember)
    (order : List String) (snap : List CoworkTask) (tid0 : String) (t : CoworkTask)
    (hf : findTask snap tid0 = some t) (ht : isTerminalTask t.state = true) :
    ((t.questions = [] ∨ t.user_answers ≠ []) →
      findTask (hitlPass now order snap) tid0 = some t)
    ∧ findTask (blockingPass now order snap) tid0 = some t
    ∧ findTask (dispatchPass now roster snap order).1.tasks tid0 = some t
    ∧ (∀ (task_id : String) (answers : List String) (tasks2 : List CoworkTask),
        submit_user_input_tasks now task_id answers snap = some tasks2 →
        (findTask tasks2 tid0).map (fun u => u.state) = some t.state) := by
  refine ⟨?_, ?_, ?_, ?_⟩
  · intro hq
    have hnone : hitlMod now t = none := by
      unfold hitlMod
      rw [if_neg]
      intro hcond
      rcases hq with hq | hq
      · exact hcond.1 hq
      · exact hq hcond.2.1
    have := stalePass_findTask_eq (hitlMod now) snap tid0 t
      (by
        intro u u2 hu
        unfold hitlMod at hu
        split at hu
        · injection hu with h2; rw [← h2]
        · exact Option.noConfusion hu)
      hf hnone order snap
    rw [hitlPass, this, hf]
  · have hnone : blockingMod now snap t = none := by
      unfold blockingMod
      rw [if_neg]
      intro hcond
      exact (terminal_not_draft_or_ready ht) hcond.1
    have := stalePass_findTask_eq (blockingMod now snap) snap tid0 t
      (by
        intro u u2 hu
        unfold blockingMod at hu
        split at hu
        · injection hu with h2; rw [← h2]
        · exact Option.noConfusion hu)
      hf hnone order snap
    rw [blockingPass, this, hf]
  · simp only [dispatchPass]
    have := dispatchGo_findTask_eq now roster snap (maxParallel roster) tid0 t hf ht order
      { tasks := snap
        running_total := runningCount snap
        has_workspace_write_running := hasWWRunningInit snap
        scheduled_any := false
        dispatched := [] }
    rw [this, hf]
  · intro task_id answers tasks2 hsub
    exact submit_state_preserved now task_id answers snap tasks2 tid0 t hf
      (terminal_ne_waiting ht) hsub

theorem c4_terminal_preservation_witness :
    findTask [c4Term] "t9" = some c4Term
    ∧ isTerminalTask c4Term.state = true
    ∧ findTask (blockingPass 0 ["t9"] [c4Term]) "t9" = some c4Term :=
  ⟨by decide, by decide,
    (c4_terminal_preservation 0 [devMember] ["t9"] [c4Term] "t9" c4Term
      (by decide) (by decide)).2.1⟩

/-! ## C5: blocking propagation -/

theorem findTask_self_of_nodup :
    ∀ (l : List CoworkTask), (l.map (fun t => t.id)).Nodup →
      ∀ u, u ∈ l → findTask l u.id = some u := by
  intro l
  induction l with
  | nil => intro _ u hu; exact absurd hu (List.not_mem_nil u)
  | cons t rest ih =>
    intro hnd u hu
    rw [List.map_cons, List.nodup_cons] at hnd
    rcases List.mem_cons.mp hu with hu | hu
    · rw [hu]
      exact findTask_cons_pos (by simp)
    · have hne : (t.id == u.id) = false := by
        apply beq_eq_false_iff_ne.mpr
        intro hcontra
        exact hnd.1 (hcontra ▸ List.mem_map_of_mem (fun t => t.id) hu)
      rw [findTask_cons_neg hne]
      exact ih hnd.2 u hu

theorem updateTaskIn_map (g : CoworkTask → CoworkTask) (hg : ∀ u, (g u).id = u.id) :
    ∀ (l : List CoworkTask), (l.map (fun t => t.id)).Nodup → ∀ (t2 : CoworkTask),
      updateTaskIn (l.map g) t2 = l.map (fun u => if u.id = t2.id then t2 else g u) := by
  intro l
  induction l with
  | nil => intro _ t2; rfl
  | cons u rest ih =>
    intro hnd t2
    rw [List.map_cons, List.nodup_cons] at hnd
    rw [List.map_cons, updateTaskIn, List.map_cons]
    by_cases he : ((g u).id == t2.id) = true
    · rw [if_pos he]
      have hid : u.id = t2.id := by rw [← hg u]; exact eq_of_beq he
      rw [if_pos hid]
      congr 1
      apply (List.map_congr_left ?_).symm
      intro v hv
      rw [if_neg]
      intro hcontra
      apply hnd.1
      rw [hid, ← hcontra]
      exact List.mem_map_of_mem (fun t => t.id) hv
    · have hef : ((g u).id == t2.id) = false := by
        cases hb : ((g u).id == t2.id) with
        | false => rfl
        | true => exact absurd hb he
      rw [if_neg he]
      have hid : ¬(u.id = t2.id) := by
        intro hcontra
        have : (g u).id = t2.id := by rw [hg u]; exact hcontra
        rw [this] at hef
        simp at hef
      rw [if_neg hid]
      rw [ih hnd.2 t2]

theorem stalePass_mapped (f : CoworkTask → Option CoworkTask) (snap : List CoworkTask)
    (hidp : ∀ u u2, f u = some u2 → u2.id = u.id)
    (hnd : (snap.map (fun t => t.id)).Nodup) :
    ∀ (order : List String) (S : List String),
      stalePass f snap order (snap.map (applyModIn f S)) =
        snap.map (applyModIn f (S ++ order)) := by
  have hmodid : ∀ S u, (applyModIn f S u).id = u.id := by
    intro S u
    unfold applyModIn
    split
    · cases hfu : f u with
      | none => rfl
      | some u2 => simp [hfu, hidp u u2 hfu]
    · rfl
  intro order
  induction order with
  | nil => intro S; rw [List.append_nil]; rfl
  | cons tid rest ih =>
    intro S
    rw [stalePass]
    cases hft : findTask snap tid with
    | none =>
      have hcongr : snap.map (applyModIn f S) = snap.map (applyModIn f (S ++ [tid])) := by
        apply List.map_congr_left
        intro u hu
        have hne : u.id ≠ tid := by
          intro hcontra
          have := findTask_self_of_nodup snap hnd u hu
          rw [hcontra, hft] at this
          exact Option.noConfusion this
        unfold applyModIn
        by_cases hmem : u.id ∈ S
        · rw [if_pos hmem, if_pos (List.mem_append_left [tid] hmem)]
        · rw [if_neg hmem, if_neg]
          intro hcontra
          rcases List.mem_append.mp hcontra with hc | hc
          · exact hmem hc
          · exact hne (List.mem_singleton.mp hc)
      dsimp only
      rw [hcongr]
      have := ih (S ++ [tid])
      rw [List.append_assoc] at this
      simpa using this
    | some t =>
      have htid : t.id = tid := findTask_some_id hft
      have huniq : ∀ u, u ∈ snap → u.id = tid → u = t := by
        intro u hu hid
        have := findTask_self_of_nodup snap hnd u hu
        rw [hid, hft] at this
        injection this with h2
        exact h2.symm
      dsimp only
      cases hfu : f t with
      | none =>
        have hcongr : snap.map (applyModIn f S) = snap.map (applyModIn f (S ++ [tid])) := by
          apply List.map_congr_left
          intro u hu
          by_cases hne : u.id = tid
          · have hut : u = t := huniq u hu hne
            unfold applyModIn
            rw [hut, hfu]
            by_cases hmem : t.id ∈ S
            · rw [if_pos hmem, if_pos (List.mem_append_left [tid] hmem)]
            · rw [if_neg hmem, if_pos (by
                apply List.mem_append_right
                rw [← hut, hne]
                exact List.mem_singleton_self tid)]
              rfl
          · unfold applyModIn
            by_cases hmem : u.id ∈ S
            · rw [if_pos hmem, if_pos (List.mem_append_left [tid] hmem)]
            · rw [if_neg hmem, if_neg]
              intro hcontra
              rcases List.mem_append.mp hcontra with hc | hc
              · exact hmem hc
              · exact hne (List.mem_singleton.mp hc)
        rw [hcongr]
        have := ih (S ++ [tid])
        rw [List.append_assoc] at this
        simpa using this
      | some t2 =>
        dsimp only
        have ht2 : t2.id = tid := by rw [hidp t t2 hfu]; exact htid
        rw [updateTaskIn_map (applyModIn f S) (hmodid S) snap hnd t2]
        have hcongr : snap.map (fun u => if u.id = t2.id then t2 else applyModIn f S u) =
            snap.map (applyModIn f (S ++ [tid])) := by
          apply List.map_congr_left
          intro u hu
          by_cases hne : u.id = t2.id
          · rw [if_pos hne]
            have hut : u = t := huniq u hu (by rw [hne]; exact ht2)
            unfold applyModIn
            rw [hut, if_pos (by
              apply List.mem_append_right
              rw [← htid]
              exact List.mem_singleton_self t.id), hfu]
            rfl
          · rw [if_neg hne]
            unfold applyModIn
            by_cases hmem : u.id ∈ S
            · rw [if_pos hmem, if_pos (List.mem_append_left [tid] hmem)]
            · rw [if_neg hmem, if_neg]
              intro hcontra
              rcases List.mem_append.mp hcontra with hc | hc
              · exact hmem hc
              · rw [← ht2] at hc
                exact hne (List.mem_singleton.mp hc)
        rw [hcongr]
        have := ih (S ++ [tid])
        rw [List.append_assoc] at this
        simpa using this

theorem stalePass_eq_map (f : CoworkTask → Option CoworkTask) (snap : List CoworkTask)
    (hidp : ∀ u u2, f u = some u2 → u2.id = u.id)
    (hnd : (snap.map (fun t => t.id)).Nodup) :
    stalePass f snap (snap.map (fun t => t.id)) snap =
      snap.map (fun t => (f t).getD t) := by
  have h0 : snap.map (applyModIn f []) = snap := by
    have : snap.map (applyModIn f []) = snap.map (fun t => t) := by
      apply List.map_congr_left
      intro u _
      unfold applyModIn
      rw [if_neg (List.not_mem_nil u.id)]
    rw [this]
    simp
  have h1 := stalePass_mapped f snap hidp hnd (snap.map (fun t => t.id)) []
  rw [h0, List.nil_append] at h1
  rw [h1]
  apply List.map_congr_left
  intro u hu
  unfold applyModIn
  rw [if_pos (List.mem_map_of_mem (fun t => t.id) hu)]

theorem isDR_iff (t : CoworkTask) :
    isDR t = true ↔ (t.state = CoworkTaskState.Draft ∨ t.state = CoworkTaskState.Ready) := by
  simp [isDR]

theorem blockingApply_of_not_fire (now : Int) (snap : List CoworkTask) (t : CoworkTask)
    (h : (isDR t && (deps_failed snap t).isSome) = false) :
    (blockingMod now snap t).getD t = t := by
  unfold blockingMod
  rw [if_neg]
  · rfl
  · intro hcond
    rw [Bool.and_eq_false_iff] at h
    rcases h with h | h
    · exact absurd ((isDR_iff t).mpr hcond.1) (by rw [h]; simp)
    · rw [h] at hcond
      exact Bool.noConfusion hcond.2

theorem blockingApply_of_fire (now : Int) (snap : List CoworkTask) (t : CoworkTask)
    (h : (isDR t && (deps_failed snap t).isSome) = true) :
    isDR ((blockingMod now snap t).getD t) = false := by
  rw [Bool.and_eq_true] at h
  unfold blockingMod
  rw [if_pos ⟨(isDR_iff t).mp h.1, h.2⟩]
  simp [isDR]

theorem countDR_cons (t : CoworkTask) (l : List CoworkTask) :
    countDR (t :: l) = countDR l + (if isDR t then 1 else 0) := by
  by_cases h : isDR t = true
  · simp [countDR, List.filter_cons, h]
  · simp [countDR, List.filter_cons, h]

theorem countQual_cons (snap : List CoworkTask) (t : CoworkTask) (l : List CoworkTask) :
    countQual snap (t :: l) =
      countQual snap l + (if isDR t && (deps_failed snap t).isSome then 1 else 0) := by
  by_cases h : (isDR t && (deps_failed snap t).isSome) = true
  · simp [countQual, List.filter_cons, h]
  · simp [countQual, List.filter_cons, h]

theorem countDR_map_blocking (now : Int) (snap : List CoworkTask) :
    ∀ (l : List CoworkTask),
      countDR (l.map (fun t => (blockingMod now snap t).getD t)) + countQual snap l
        = countDR l := by
  intro l
  induction l with
  | nil => rfl
  | cons t rest ih =>
    rw [List.map_cons, countDR_cons, countDR_cons, countQual_cons]
    cases hq : (isDR t && (deps_failed snap t).isSome) with
    | true =>
      rw [blockingApply_of_fire now snap t hq]
      have hq2 := hq
      rw [Bool.and_eq_true] at hq2
      rw [hq2.1]
      simp only [if_true, if_false, Bool.false_eq_true]
      omega
    | false =>
      rw [blockingApply_of_not_fire now snap t hq]
      simp only [Bool.false_eq_true, if_false]
      omega

theorem noBlockable_false_countQual {ts : List CoworkTask}
    (h : noBlockable ts = false) : 1 ≤ countQual ts ts := by
  have hex : ∃ t, t ∈ ts ∧ ¬((!(isDR t) || (deps_failed ts t).isNone) = true) := by
    by_contra hc
    push_neg at hc
    have hall : noBlockable ts = true := by
      unfold noBlockable
      rw [List.all_eq_true]
      intro t ht
      exact hc t ht
    rw [hall] at h
    exact Bool.noConfusion h
  obtain ⟨t, ht, hp⟩ := hex
  have hpf : (!(isDR t) || (deps_failed ts t).isNone) = false := by
    cases hb : (!(isDR t) || (deps_failed ts t).isNone) with
    | false => rfl
    | true => exact absurd hb hp
  rw [Bool.or_eq_false_iff] at hpf
  have hdr : isDR t = true := by
    cases hb : isDR t with
    | true => rfl
    | false => rw [hb] at hpf; exact absurd hpf.1 (by simp)
  have hsome : (deps_failed ts t).isSome = true := by
    cases ho : deps_failed ts t with
    | none => rw [ho] at hpf; exact absurd hpf.2 (by simp)
    | some d => rfl
  have hmem : t ∈ ts.filter (fun t => isDR t && (deps_failed ts t).isSome) :=
    List.mem_filter.mpr ⟨ht, by rw [hdr, hsome]; rfl⟩
  unfold countQual
  have := List.length_pos.mpr (List.ne_nil_of_mem hmem)
  omega

theorem noBlockable_fix (now : Int) {ts : List CoworkTask}
    (h : noBlockable ts = true) : blockingPassAll now ts = ts := by
  unfold blockingPassAll
  have : ts.map (fun t => (blockingMod now ts t).getD t) = ts.map (fun t => t) := by
    apply List.map_congr_left
    intro t ht
    unfold noBlockable at h
    rw [List.all_eq_true] at h
    have hpt := h t ht
    apply blockingApply_of_not_fire
    rw [Bool.or_eq_true_iff] at hpt
    rcases hpt with hpt | hpt
    · rw [Bool.and_eq_false_iff]
      left
      cases hb : isDR t with
      | false => rfl
      | true => rw [hb] at hpt; exact absurd hpt (by simp)
    · rw [Bool.and_eq_false_iff]
      right
      cases ho : deps_failed ts t with
      | none => rfl
      | some d => rw [ho] at hpt; exact absurd hpt (by simp)
  rw [this]
  simp

theorem bpAll_fix (now : Int) :
    ∀ (k : Nat) (ts : List CoworkTask), countDR ts ≤ k →
      noBlockable ((blockingPassAll now)^[k] ts) = true := by
  intro k
  induction k with
  | zero =>
    intro ts h
    simp only [Function.iterate_zero, id]
    have hzero : countDR ts = 0 := Nat.le_zero.mp h
    unfold countDR at hzero
    have hnil : ts.filter isDR = [] := List.length_eq_zero.mp hzero
    unfold noBlockable
    rw [List.all_eq_true]
    intro t ht
    have hndr : ¬(isDR t = true) := by
      intro hdr
      have : t ∈ ts.filter isDR := List.mem_filter.mpr ⟨ht, hdr⟩
      rw [hnil] at this
      exact absurd this (List.not_mem_nil t)
    have : isDR t = false := by
      cases hb : isDR t with
      | false => rfl
      | true => exact absurd hb hndr
    rw [this]
    rfl
  | succ k ih =>
    intro ts h
    cases hnb : noBlockable ts with
    | true =>
      rw [Function.iterate_fixed (noBlockable_fix now hnb)]
      exact hnb
    | false =>
      have hq := noBlockable_false_countQual hnb
      have hcount := countDR_map_blocking now ts ts
      have hdec : countDR (blockingPassAll now ts) < countDR ts := by
        unfold blockingPassAll
        omega
      rw [Function.iterate_succ_apply]
      exact ih _ (by omega)

theorem blockingPassAll_ids (now : Int) (ts : List CoworkTask) :
    (blockingPassAll now ts).map (fun t => t.id) = ts.map (fun t => t.id) := by
  unfold blockingPassAll
  rw [List.map_map]
  apply List.map_congr_left
  intro t _
  simp only [Function.comp]
  unfold blockingMod
  split
  · rfl
  · rfl

theorem blockingPass_eq_all (now : Int) (ts : List CoworkTask)
    (hnd : (ts.map (fun t => t.id)).Nodup) :
    blockingPass now (ts.map (fun t => t.id)) ts = blockingPassAll now ts := by
  unfold blockingPass blockingPassAll
  apply stalePass_eq_map
  · intro u u2 hu
    unfold blockingMod at hu
    split at hu
    · injection hu with h2; rw [← h2]
    · exact Option.noConfusion hu
  · exact hnd

/-- C5 is FALSE as stated (the single-iteration reading): with `c` `Failed`,
`b` depending on `c` and `a` depending on `b`, one full scheduler-loop
iteration blocks `b` but leaves `a` in `Draft` with its dependency `b` in
`Blocked` state, because the blocking pass consults the pre-pass snapshot in
which `b` was still `Draft`.  (`a` is blocked only on the NEXT iteration.) -/
theorem c5_counterexample :
    loopIter false 0 c5Sess =
      LoopOutcome.continuing (loopTasks (loopIter false 0 c5Sess)) []
    ∧ (findTask (loopTasks (loopIter false 0 c5Sess)) "a").map (fun u => u.state)
        = some CoworkTaskState.Draft
    ∧ (findTask (loopTasks (loopIter false 0 c5Sess)) "a").map (fun u => u.deps)
        = some ["b"]
    ∧ (findTask (loopTasks (loopIter false 0 c5Sess)) "b").map (fun u => u.state)
        = some CoworkTaskState.Blocked
    ∧ noBlockable (loopTasks (loopIter false 0 c5Sess)) = false := by decide

/-- C5 (amended).  A task whose dependency has failed does not remain
`Draft`/`Ready` indefinitely: each blocking pass blocks every `Draft`/`Ready`
task whose dependency was already `Failed`/`Cancelled`/`Blocked` at the
start of that pass, and iterating the pass at most (number of tasks) times
reaches a state in which no `Draft`/`Ready` task has a failed dependency.
A single iteration guarantees this only for dependencies failed before the
pass, not for tasks blocked during the same pass. -/
theorem c5_blocking_propagation (now : Int) (snap : List CoworkTask) (order : List String)
    (horder : order = snap.map (fun t => t.id))
    (hnd : (snap.map (fun t => t.id)).Nodup) :
    noBlockable ((fun ts => blockingPass now order ts)^[snap.length] snap) = true := by
  have main : ∀ (k : Nat) (ts : List CoworkTask),
      ts.map (fun t => t.id) = snap.map (fun t => t.id) →
      ((fun ts => blockingPass now order ts)^[k] ts) = (blockingPassAll now)^[k] ts := by
    intro k
    induction k with
    | zero => intro ts _; rfl
    | succ k ih =>
      intro ts hts
      rw [Function.iterate_succ_apply, Function.iterate_succ_apply]
      have hone : blockingPass now order ts = blockingPassAll now ts := by
        rw [horder, ← hts]
        exact blockingPass_eq_all now ts (by rw [hts]; exact hnd)
      rw [hone]
      exact ih (blockingPassAll now ts) ((blockingPassAll_ids now ts).trans hts)
  rw [main snap.length snap rfl]
  exact bpAll_fix now snap.length snap (List.length_filter_le isDR snap)

theorem c5_blocking_propagation_witness :
    (["c", "b", "a"] = c5Tasks.map (fun t => t.id))
    ∧ (c5Tasks.map (fun t => t.id)).Nodup
    ∧ noBlockable
        ((fun ts => blockingPass 0 ["c", "b", "a"] ts)^[c5Tasks.length] c5Tasks) = true :=
  ⟨by decide, by decide,
    c5_blocking_propagation 0 c5Tasks ["c", "b", "a"] (by decide) (by decide)⟩

/-! ## C6: terminal session states -/

/-- C6 is FALSE as stated: `pause` has no terminal-state guard.  On a store
whose session is `Completed`, `pause` succeeds and moves the session state
to `Paused`. -/
theorem c6_counterexample :
    sessionStateAt c6Store "s" = some CoworkSessionState.Completed
    ∧ sessionStateAt (pause c6Store "s" 1).1 "s" = some CoworkSessionState.Paused
    ∧ (pause c6Store "s" 1).2 = Except.ok () :=
  ⟨by decide, by decide, rfl⟩

/-- C6 (amended).  `Completed`/`Cancelled`/`Error` are terminal only with
respect to the scheduler loop, which on observing such a state returns
without mutating the session.  The public operations carry no guard: on a
session in any of these states `pause` sets `Paused`, `cancel` sets
`Cancelled`, a `updatePlan` with valid dependencies sets `Ready`,
`generatePlan` enters `Planning`, and `start` (state ≠ `Running`) sets
`Running`. -/
theorem c6_terminal_only_for_loop (store : CoworkStore) (sid : String)
    (s : CoworkSession) (now now2 : Int)
    (hs : storeGet store sid = some s)
    (ht : s.state = CoworkSessionState.Completed ∨ s.state = CoworkSessionState.Cancelled ∨
      s.state = CoworkSessionState.Error) :
    loopIter false now2 s = LoopOutcome.exitNoChange
    ∧ sessionStateAt (pause store sid now).1 sid = some CoworkSessionState.Paused
    ∧ sessionStateAt (cancel store sid now).1 sid = some CoworkSessionState.Cancelled
    ∧ (∀ req : CoworkUpdatePlanRequest, req.cowork_session_id = sid →
        firstBadDep req.tasks req.tasks = none →
        sessionStateAt (update_plan store req now).1 sid = some CoworkSessionState.Ready)
    ∧ sessionStateAt (generate_plan_enter store sid now).1 sid
        = some CoworkSessionState.Planning
    ∧ sessionStateAt (startTransition store sid now).1 sid
        = some CoworkSessionState.Running := by
  refine ⟨?_, ?_, ?_, ?_, ?_, ?_⟩
  · unfold loopIter
    rcases ht with h | h | h <;> rw [h] <;> rfl
  · unfold pause update_session_state
    rw [hs]
    simp [sessionStateAt, storeGet_storeInsert_self]
  · unfold cancel update_session_state
    rw [hs]
    simp [sessionStateAt, storeGet_storeInsert_self]
  · intro req hreq hnone
    unfold update_plan
    rw [hreq, hs, hnone]
    simp [sessionStateAt, storeGet_storeInsert_self]
  · unfold generate_plan_enter
    rw [hs]
    simp [sessionStateAt, storeGet_storeInsert_self]
  · have hbeq : (s.state == CoworkSessionState.Running) = false := by
      rcases ht with h | h | h <;> rw [h] <;> rfl
    unfold startTransition update_session_state
    rw [hs]
    dsimp only
    rw [hbeq]
    simp [sessionStateAt, storeGet_storeInsert_self]

theorem c6_terminal_only_for_loop_witness :
    storeGet c6Store "s" = some (mkSession [] [] CoworkSessionState.Completed)
    ∧ (mkSession [] [] CoworkSessionState.Completed).state = CoworkSessionState.Completed
    ∧ sessionStateAt (cancel c6Store "s" 2).1 "s" = some CoworkSessionState.Cancelled :=
  ⟨by decide, by decide,
    (c6_terminal_only_for_loop c6Store "s" (mkSession [] [] CoworkSessionState.Completed)
      2 5 (by decide) (Or.inl (by decide))).2.2.1⟩

/-! ## C7: dependency-index resolution in generatePlan -/

theorem digitChar_isDigit {d : Nat} (h : d < 10) : (digitChar d).isDigit = true := by
  interval_cases d <;> decide

theorem digitChar_toNat {d : Nat} (h : d < 10) : (digitChar d).toNat = 48 + d := by
  interval_cases d <;> decide

theorem parseNatCore_digitsAux :
    ∀ (fuel n : Nat) (acc : List Char) (v : Nat), n ≤ fuel →
      parseNatCore (natDigitsAux fuel n acc) v = parseNatCore acc (v * tenPow n + n) := by
  intro fuel
  induction fuel with
  | zero =>
    intro n acc v hle
    have hn : n = 0 := Nat.le_zero.mp hle
    subst hn
    rw [natDigitsAux, tenPow, if_pos (by omega), parseNatCore,
      if_pos (digitChar_isDigit (by omega)), digitChar_toNat (by omega)]
  | succ fuel ih =>
    intro n acc v hle
    rw [natDigitsAux, tenPow]
    by_cases h : n < 10
    · rw [if_pos h, if_pos h, parseNatCore, if_pos (digitChar_isDigit h),
        digitChar_toNat h]
      congr 1
      omega
    · have hnz : 0 < n := by omega
      have hmod : n % 10 < 10 := Nat.mod_lt n (by omega)
      have hfuel : n / 10 ≤ fuel := by
        have := Nat.div_lt_self hnz (show 1 < 10 by omega)
        omega
      rw [if_neg h, if_neg h, ih (n / 10) (digitChar (n % 10) :: acc) v hfuel,
        parseNatCore, if_pos (digitChar_isDigit hmod), digitChar_toNat hmod]
      congr 1
      have h10 : 10 * (n / 10) + n % 10 = n := Nat.div_add_mod n 10
      have hsub : 48 + n % 10 - 48 = n % 10 := by omega
      rw [hsub]
      generalize tenPow (n / 10) = w
      have hexp : (v * w + n / 10) * 10 = v * w * 10 + n / 10 * 10 := by ring
      have hexp2 : v * (w * 10) = v * w * 10 := by ring
      rw [hexp, hexp2]
      omega

theorem natDigitsAux_ne_nil :
    ∀ (fuel n : Nat) (acc : List Char), natDigitsAux fuel n acc ≠ [] := by
  intro fuel
  induction fuel with
  | zero => intro n acc; rw [natDigitsAux]; exact List.cons_ne_nil _ _
  | succ fuel ih =>
    intro n acc
    rw [natDigitsAux]
    by_cases h : n < 10
    · rw [if_pos h]; exact List.cons_ne_nil _ _
    · rw [if_neg h]; exact ih (n / 10) _

theorem parseNatChars_natDigits (n : Nat) : parseNatChars (natDigits n) = some n := by
  unfold natDigits
  cases hd : natDigitsAux n n [] with
  | nil => exact absurd hd (natDigitsAux_ne_nil n n [])
  | cons c cs =>
    rw [parseNatChars, ← hd, parseNatCore_digitsAux n n [] 0 (Nat.le_refl n), parseNatCore]
    simp

theorem stripIdx_mkIdxDep (i : Nat) : stripIdx (mkIdxDep i) = some (natDigits i) := by
  rfl

theorem resolveDep_mkIdxDep (ids : List String) (i : Nat) :
    resolveDep ids (mkIdxDep i) = (ids.get? i).getD (mkIdxDep i) := by
  unfold resolveDep
  rw [stripIdx_mkIdxDep]
  dsimp only
  rw [parseNatChars_natDigits]
  dsimp only
  cases h : ids.get? i with
  | none => simp
  | some tid => simp

theorem generate_plan_ids (now : Int) (roster : List CoworkRosterMember)
    (idOf : Nat → String) (drafts : List PlanTaskDraft) :
    (drafts.enum.map (fun p => draftToTask now roster idOf p.1 p.2)).map (fun t => t.id)
      = (List.range drafts.length).map idOf := by
  rw [List.map_map]
  have h1 : ((fun t : CoworkTask => t.id) ∘ (fun p : Nat × PlanTaskDraft =>
      draftToTask now roster idOf p.1 p.2)) = (fun p : Nat × PlanTaskDraft => idOf p.1) := by
    funext p; rfl
  rw [h1]
  have h2 : (fun p : Nat × PlanTaskDraft => idOf p.1) = idOf ∘ Prod.fst := by
    funext p; rfl
  rw [h2, ← List.map_map, List.enum_map_fst]

/-- C7 is FALSE as stated: a dependency index out of range does NOT fail
`generatePlan`.  For a single-task draft depending on `idx:5`, the task list
is built with the literal string `idx:5` left in `deps`, the task is
produced, and the plan is installed with the session set to `Ready`. -/
theorem c7_counterexample :
    (generate_plan_tasks 0 [devMember] idOf0 [c7Draft]).map (fun t => t.deps)
      = [[mkIdxDep 5]]
    ∧ (generate_plan_tasks 0 [devMember] idOf0 [c7Draft]).map (fun t => t.state)
      = [CoworkTaskState.Draft]
    ∧ (generate_plan_install (mkSession [] [] CoworkSessionState.Draft) 0
        (generate_plan_tasks 0 [devMember] idOf0 [c7Draft])).state
      = CoworkSessionState.Ready := by decide

/-- C7 (amended).  During `generatePlan`, a dependency `idx:i` with `i` in
range of the draft list is rewritten to the generated id of the task at
position `i` of the draft order (the generated ids are exactly `idOf` of
the positions), while an out-of-range index is kept verbatim as the literal
string `idx:i` — the resolution phase never fails and the plan is installed
regardless; the dangling literal is rejected later, by the scheduler loop's
validation pass. -/
theorem c7_idx_resolution (now : Int) (roster : List CoworkRosterMember)
    (idOf : Nat → String) (drafts : List PlanTaskDraft) (ids : List String) (i : Nat) :
    resolveDep ids (mkIdxDep i) = (ids.get? i).getD (mkIdxDep i)
    ∧ (generate_plan_tasks now roster idOf drafts).map (fun t => t.id)
        = (List.range drafts.length).map idOf
    ∧ (generate_plan_tasks now roster idOf drafts).map (fun t => t.deps)
        = drafts.map (fun d =>
            d.deps.map (resolveDep ((List.range drafts.length).map idOf))) := by
  refine ⟨resolveDep_mkIdxDep ids i, ?_, ?_⟩
  · unfold generate_plan_tasks
    rw [List.map_map]
    have h1 : ((fun t : CoworkTask => t.id) ∘ (fun t : CoworkTask =>
        { t with deps := t.deps.map (resolveDep
            ((drafts.enum.map (fun p => draftToTask now roster idOf p.1 p.2)).map
              (fun t => t.id))) })) = (fun t : CoworkTask => t.id) := by
      funext t; rfl
    rw [h1]
    exact generate_plan_ids now roster idOf drafts
  · unfold generate_plan_tasks
    rw [List.map_map, generate_plan_ids now roster idOf drafts]
    rw [List.map_map]
    have h2 : (((fun t : CoworkTask => t.deps) ∘ (fun t : CoworkTask =>
        { t with deps := t.deps.map (resolveDep
            ((List.range drafts.length).map idOf)) })) ∘
        (fun p : Nat × PlanTaskDraft => draftToTask now roster idOf p.1 p.2))
        = ((fun d : PlanTaskDraft =>
            d.deps.map (resolveDep ((List.range drafts.length).map idOf))) ∘ Prod.snd) := by
      funext p; rfl
    rw [h2, ← List.map_map, List.enum_map_snd]

/-! ## C8: the resource-mode hint of a planner draft -/

/-- C8 fails on the code: the `CoworkTask` literal built by `generate_plan`
(manager.rs lines 170-185) does not set `resource_mode` and never reads the
draft's `resource_mode` hint — here a draft carrying the hint `read_only`
still yields a `WorkspaceWrite` task.  (The first half of the claim does
hold: the produced task starts `Draft` with empty output and no error.) -/
theorem c8_resource_mode_hint_dropped :
    c8Draft.resource_mode = some "read_only"
    ∧ (generate_plan_tasks 0 [devMember] idOf0 [c8Draft]).map (fun t => t.resource_mode)
        = [CoworkTaskResourceMode.WorkspaceWrite]
    ∧ (generate_plan_tasks 0 [devMember] idOf0 [c8Draft]).map
        (fun t => (t.state, t.output_text, t.error))
        = [(CoworkTaskState.Draft, "", (none : Option String))] := by decide

/-! ## C9: truncation of dependency outputs -/

/-- C9 fails on the code: `truncate` measures and slices BYTES, and byte
index 2000 of a string of 1999 ASCII characters followed by a two-byte
character is not a character boundary, so the Rust slice `&s[..2000]`
panics (modelled as `none`).  The byte length 2001 > 2000 shows the
truncating branch is taken. -/
theorem utf8Len_append (a b : List Char) : utf8Len (a ++ b) = utf8Len a + utf8Len b := by
  induction a with
  | nil => simp [utf8Len]
  | cons c cs ih =>
    rw [List.cons_append, utf8Len, utf8Len, ih]
    omega

theorem utf8Len_replicate (n : Nat) (c : Char) :
    utf8Len (List.replicate n c) = n * c.utf8Size := by
  induction n with
  | zero => simp [List.replicate, utf8Len]
  | succ n ih =>
    rw [List.replicate_succ, utf8Len, ih]
    ring

theorem isCharBoundary_replicate_ascii (n : Nat) (l : List Char) (i : Nat) :
    isCharBoundary (List.replicate n 'a' ++ l) (n + i) = isCharBoundary l i := by
  induction n with
  | zero => simp
  | succ n ih =>
    rw [List.replicate_succ, List.cons_append]
    have harith : n + 1 + i = (n + i) + 1 := by omega
    rw [harith, isCharBoundary]
    have hsize : ('a').utf8Size = 1 := rfl
    rw [if_pos (by rw [hsize]; omega), hsize]
    have harith2 : (n + i) + 1 - 1 = n + i := by omega
    rw [harith2]
    exact ih

/-- C9 fails on the code: `truncate` measures and slices BYTES, and byte
index 2000 of a string of 1999 ASCII characters followed by a two-byte
character is not a character boundary, so the Rust slice `&s[..2000]`
panics (modelled as `none`).  The byte length 2001 > 2000 shows the
truncating branch is taken. -/
theorem c9_truncate_panics :
    utf8Len c9Str = 2001
    ∧ isCharBoundary c9Str 2000 = false
    ∧ truncate c9Str 2000 = none := by
  have hlen : utf8Len c9Str = 2001 := by
    unfold c9Str
    rw [utf8Len_append, utf8Len_replicate]
    have h1 : ('a').utf8Size = 1 := rfl
    have h2 : utf8Len ['é'] = 2 := rfl
    rw [h1, h2]
  have hbound : isCharBoundary c9Str 2000 = false := by
    unfold c9Str
    have h2000 : (2000 : Nat) = 1999 + 1 := by norm_num
    rw [h2000, isCharBoundary_replicate_ascii 1999 ['é'] 1]
    rfl
  refine ⟨hlen, hbound, ?_⟩
  unfold truncate
  rw [if_neg (by rw [hlen]; omega), if_neg (by rw [hbound]; simp)]

end Cowork
